import Mathlib

/-
Verification of the hgnc-go core: a shallow embedding in Lean 4 of the
record store, per-field caches, alias map, symbol normalizer, identifier
classifier and the two query primitives (`Fetch`, `Lookup`), together with
theorems settling the specification claims.

Modelling conventions:
  * Go strings are Lean `String`s; string helpers from the Go standard
    library used by the code (`strings.Split` with a one-character
    separator, `strings.TrimSpace`, `strings.Trim(s, "\"")`,
    `strings.HasPrefix`, `strconv.Atoi`) are re-implemented structurally
    over `List Char` so every definition evaluates by kernel reduction.
  * Go maps are association lists with update-in-place insertion; lookup
    returns `Option`, and indexing a map at a missing key yields the zero
    value `""`, exactly as in Go.
  * The possibly-nil receiver of `Fetch`/`Lookup` is an `Option HGNC`;
    the Go panic on a nil receiver is an `Except.error`.
  * `h.records[index]` is modelled with `List.getD _ _ emptyRecord`; the
    load pass only ever stores in-range positions.
-/

namespace HgncGo

-- ===== Go string helpers (strings / strconv), modelled structurally =====

/-- The whitespace class of Go's `unicode.IsSpace` (what `strings.TrimSpace`
trims). -/
def goIsSpace (c : Char) : Bool :=
  c = ' ' || c = '\t' || c = '\n' || c = '\x0B' || c = '\x0C' || c = '\r' ||
  c = '\u0085' || c = '\u00A0' || c = '\u1680' ||
  ('\u2000' ≤ c && c ≤ '\u200A') || c = '\u2028' || c = '\u2029' ||
  c = '\u202F' || c = '\u205F' || c = '\u3000'

/-- Drop the leading and trailing characters satisfying `p`
(Go `strings.Trim` with a one-character-class cutset). -/
def trimCharsBy (p : Char → Bool) (l : List Char) : List Char :=
  ((l.dropWhile p).reverse.dropWhile p).reverse

/-- Go `strings.TrimSpace`. -/
def goTrimSpace (s : String) : String := ⟨trimCharsBy goIsSpace s.data⟩

/-- Go `strings.Trim(s, "\"")`. -/
def trimQuotes (s : String) : String := ⟨trimCharsBy (fun c => c = '"') s.data⟩

/-- Split a character list on every occurrence of `sep`
(Go `strings.Split` with a one-character separator, over the char list). -/
def splitOnChar (sep : Char) : List Char → List (List Char)
  | [] => [[]]
  | c :: rest =>
    if c = sep then [] :: splitOnChar sep rest
    else
      match splitOnChar sep rest with
      | [] => [[c]]
      | x :: xs => (c :: x) :: xs

/-- Go `strings.Split(s, sep)` for a one-character separator. -/
def goSplit (s : String) (sep : Char) : List String :=
  (splitOnChar sep s.data).map (fun l => ⟨l⟩)

/-- `listIsPre p l` is true when `p` is an initial segment of `l`. -/
def listIsPre : List Char → List Char → Bool
  | [], _ => true
  | _ :: _, [] => false
  | a :: as, b :: bs => a = b && listIsPre as bs

/-- Go `strings.HasPrefix s pre`. -/
def hasPre (pre s : String) : Bool := listIsPre pre.data s.data

/-- Decimal value of a digit list. -/
def digitsVal (l : List Char) : Nat :=
  l.foldl (fun acc c => acc * 10 + (c.toNat - 48)) 0

/-- Whether Go `strconv.Atoi` succeeds on `s` (optional sign, at least one
digit, nothing else, and the value fits in a 64-bit `int`). -/
def atoiOk (s : String) : Bool :=
  match s.data with
  | [] => false
  | '+' :: rest => !rest.isEmpty && rest.all Char.isDigit && digitsVal rest < 2 ^ 63
  | '-' :: rest => !rest.isEmpty && rest.all Char.isDigit && digitsVal rest ≤ 2 ^ 63
  | l => l.all Char.isDigit && digitsVal l < 2 ^ 63

-- ===== Field catalog (field.go) =====

/-- Fields are their TSV column names, as in the Go `type Field string`. -/
abbrev Field := String

def FIELD_HGNC_ID : Field := "hgnc_id"
def FIELD_SYMBOL : Field := "symbol"
def FIELD_ENTREZ_ID : Field := "entrez_id"
def FIELD_ENSEMBL_GENE_ID : Field := "ensembl_gene_id"
def FIELD_UCSC_ID : Field := "ucsc_id"
def FIELD_REFSEQ_ACCESSION : Field := "refseq_accession"
def FIELD_OMIM_ID : Field := "omim_id"
def FIELD_ALIAS_SYMBOL : Field := "alias_symbol"
def FIELD_PREV_SYMBOL : Field := "prev_symbol"
def FIELD_NAME : Field := "name"
def FIELD_LOCUS_GROUP : Field := "locus_group"
def FIELD_MANE_SELECT : Field := "mane_select"

/-- The seven cached fields (`indexedFields` in field.go). -/
def indexedFields : List Field :=
  [FIELD_HGNC_ID, FIELD_SYMBOL, FIELD_ENTREZ_ID, FIELD_ENSEMBL_GENE_ID,
   FIELD_UCSC_ID, FIELD_REFSEQ_ACCESSION, FIELD_OMIM_ID]

-- ===== Association lists standing in for Go maps =====

/-- Lookup in a Go map modelled as an association list. -/
def lookupAssoc {α : Type} : List (String × α) → String → Option α
  | [], _ => none
  | (k', v) :: rest, k => if k' = k then some v else lookupAssoc rest k

/-- Go map assignment `m[k] = v`: update in place, else append. -/
def insertAssoc {α : Type} : List (String × α) → String → α → List (String × α)
  | [], k, v => [(k, v)]
  | (k', v') :: rest, k, v =>
    if k' = k then (k, v) :: rest else (k', v') :: insertAssoc rest k v

-- ===== Record (record.go, hgnc.go) =====

/-- A single data row: a map from field to string value. -/
structure Record where
  data : List (Field × String)
deriving DecidableEq

def emptyRecord : Record := ⟨[]⟩

/-- `record.data[field]` — Go map indexing, `""` when absent. -/
def Record.get (r : Record) (f : Field) : String :=
  (lookupAssoc r.data f).getD ""

-- ===== The HGNC structure and its load pass (hgnc.go) =====

/-- `type Cache map[string][]int`. -/
abbrev Cache := List (String × List Nat)

structure HGNC where
  records : List Record
  geneSymbolMap : List (String × String)
  stdHgncSymbols : List String
  caches : List (Field × Cache)
  autoNormSymbol : Bool

def SetAutoNormSymbol (h : HGNC) (b : Bool) : HGNC := { h with autoNormSymbol := b }

/-- The freshly initialized `HGNC` value built at the top of `LoadTsv`:
empty stores, one empty cache per indexed field, auto-normalization on. -/
def initHGNC : HGNC :=
  { records := []
    geneSymbolMap := []
    stdHgncSymbols := []
    caches := indexedFields.map (fun f => (f, ([] : Cache)))
    autoNormSymbol := true }

/-- The `headerMap` built from the header line: `headerMap[field] = i`
for each tab-separated column name. -/
def mkHeaderMap (headerLine : String) : List (String × Nat) :=
  (goSplit headerLine '\t').enum.foldl (fun m p => insertAssoc m p.2 p.1) []

/-- `line2Record`: split the line on tabs; for each header field within
range store the unquoted, whitespace-trimmed cell, else `""`. -/
def line2Record (line : String) (headerMap : List (String × Nat)) : Record :=
  let l := goSplit line '\t'
  ⟨headerMap.map (fun p =>
    (p.1, if p.2 < l.length then goTrimSpace (trimQuotes (l.getD p.2 "")) else ""))⟩

/-- Membership insertion into `stdHgncSymbols`
(`h.stdHgncSymbols[sym] = struct{}{}`). -/
def insertSet (s : List String) (x : String) : List String :=
  if x ∈ s then s else s ++ [x]

/-- The alias/prev-symbol loop body of `LoadTsv`: when the cell is
non-empty, split it on `|`, trim each token, skip empties, and map each
surviving token to the record's current symbol. -/
def addAliasTokens (m : List (String × String)) (cell sym : String) :
    List (String × String) :=
  if cell = "" then m
  else (goSplit cell '|').foldl (fun m tok =>
    let t := goTrimSpace tok
    if t = "" then m else insertAssoc m t sym) m

/-- `h.caches[field][value]` gains `idx`: append to the position list when
the key exists, else create the singleton list. -/
def cacheAppend : Cache → String → Nat → Cache
  | [], v, idx => [(v, [idx])]
  | (v', l) :: rest, v, idx =>
    if v' = v then (v', l ++ [idx]) :: rest else (v', l) :: cacheAppend rest v idx

/-- Apply `cacheAppend` to the cache of field `f` inside `h.caches`
(the field's cache is always present: `LoadTsv` creates one per indexed
field before reading any data). -/
def updateAssocCache : List (Field × Cache) → Field → String → Nat →
    List (Field × Cache)
  | [], _, _, _ => []
  | (f', c) :: rest, f, v, idx =>
    if f' = f then (f', cacheAppend c v idx) :: rest
    else (f', c) :: updateAssocCache rest f v idx

/-- The caches loop of `LoadTsv`: for every indexed field, index the
record's value at that field unless it is empty. -/
def updateCaches (cs : List (Field × Cache)) (record : Record) (idx : Nat) :
    List (Field × Cache) :=
  indexedFields.foldl (fun cs f =>
    if record.get f = "" then cs
    else updateAssocCache cs f (record.get f) idx) cs

/-- One iteration of the data loop of `LoadTsv` on an already-parsed record:
append to the store, register the current symbol, register alias and
previous-symbol tokens, and index the record under every indexed field. -/
def loadRecord (h : HGNC) (recordIdx : Nat) (record : Record) : HGNC :=
  { records := h.records ++ [record]
    geneSymbolMap :=
      addAliasTokens
        (addAliasTokens h.geneSymbolMap (record.get FIELD_ALIAS_SYMBOL)
          (record.get FIELD_SYMBOL))
        (record.get FIELD_PREV_SYMBOL) (record.get FIELD_SYMBOL)
    stdHgncSymbols := insertSet h.stdHgncSymbols (record.get FIELD_SYMBOL)
    caches := updateCaches h.caches record recordIdx
    autoNormSymbol := h.autoNormSymbol }

/-- One iteration of the data loop on a raw line, carrying `recordIdx`. -/
def loadStep (headerMap : List (String × Nat)) (acc : HGNC × Nat)
    (line : String) : HGNC × Nat :=
  (loadRecord acc.1 acc.2 (line2Record line headerMap), acc.2 + 1)

def loadTsvPair (headerLine : String) (lines : List String) : HGNC × Nat :=
  lines.foldl (loadStep (mkHeaderMap headerLine)) (initHGNC, 0)

/-- `LoadTsv`, with the file/gzip shim stripped away: the constructor is fed
the header line and the data lines it scans. -/
def LoadTsv (headerLine : String) (lines : List String) : HGNC :=
  (loadTsvPair headerLine lines).1

-- ===== Symbol normalizer (norm.go) =====

/-- `normalizeSymbol`: trim; if auto-normalization is off return the trimmed
input; else return it if it is a standard symbol, else follow the alias
map, else return it unchanged. -/
def normalizeSymbol (h : HGNC) (symbol : String) : String :=
  let symbol := goTrimSpace symbol
  if !h.autoNormSymbol then symbol
  else if symbol ∈ h.stdHgncSymbols then symbol
  else
    match lookupAssoc h.geneSymbolMap symbol with
    | some stdSymbol => stdSymbol
    | none => symbol

-- ===== Identifier classifier (hgnc.go) =====

/-- `classifyGeneStringSystem`: ordered first-match rules on the input. -/
def classifyGeneStringSystem (gene : String) : Field :=
  if hasPre "HGNC:" gene then FIELD_HGNC_ID
  else if hasPre "ENSG" gene then FIELD_ENSEMBL_GENE_ID
  else if hasPre "uc" gene then FIELD_UCSC_ID
  else if atoiOk gene then FIELD_ENTREZ_ID
  else FIELD_SYMBOL

-- ===== Query engine (search.go) =====

/-- `Fetch` on a non-nil handle. -/
def Fetch (h : HGNC) (value : String) (query : Field) : List Record :=
  if value = "" then []
  else
    let value := if query = FIELD_SYMBOL then normalizeSymbol h value else value
    match lookupAssoc h.caches query with
    | some cache =>
      match lookupAssoc cache value with
      | some indexes => indexes.map (fun i => h.records.getD i emptyRecord)
      | none => []
    | none => h.records.filter (fun r => r.get query == value)

/-- `Lookup` on a non-nil handle. -/
def Lookup (h : HGNC) (value : String) (query target : Field) : List String :=
  if value = "" then []
  else
    let value := if query = FIELD_SYMBOL then normalizeSymbol h value else value
    match lookupAssoc h.caches query with
    | some cache =>
      match lookupAssoc cache value with
      | some indexes => indexes.map (fun i => (h.records.getD i emptyRecord).get target)
      | none => []
    | none =>
      h.records.filterMap (fun r =>
        if r.get query == value then some (r.get target) else none)

/-- Whether an `Except` is a success. -/
def isOkE {α : Type} : Except String α → Bool
  | .ok _ => true
  | .error _ => false

/-- `Fetch` on a possibly-nil receiver; the Go `panic("HGNC is nil")` is the
error case. -/
def FetchHandle (h : Option HGNC) (value : String) (query : Field) :
    Except String (List Record) :=
  match h with
  | none => Except.error "HGNC is nil"
  | some hg => Except.ok (Fetch hg value query)

/-- `Lookup` on a possibly-nil receiver. -/
def LookupHandle (h : Option HGNC) (value : String) (query target : Field) :
    Except String (List String) :=
  match h with
  | none => Except.error "HGNC is nil"
  | some hg => Except.ok (Lookup hg value query target)

-- ===== Spec-side reference definitions =====

/-- Modelled from the spec: the brute-force linear scan over all records
selecting those whose stored value at `query` equals `value`, the reference
point of the scan/index-agreement property. -/
def bruteForceFetch (h : HGNC) (value : String) (query : Field) : List Record :=
  h.records.filter (fun r => r.get query == value)

/-- The positions (in row order) of the records whose value at `f` is `v`. -/
def matchPositions (rs : List Record) (f : Field) (v : String) : List Nat :=
  (List.range rs.length).filter (fun i => (rs.getD i emptyRecord).get f == v)

/-- The position list stored in the cache of field `f` under key `v`, when
both the field's cache and the key exist. -/
def cacheBucket? (h : HGNC) (f : Field) (v : String) : Option (List Nat) :=
  match lookupAssoc h.caches f with
  | some c => lookupAssoc c v
  | none => none

/-- The alias/previous-symbol tokens contributed by one cell: split on `|`,
trim each token, drop empties. -/
def cellTokens (cell : String) : List String :=
  ((goSplit cell '|').map goTrimSpace).filter (fun t => !(t == ""))

/-- All alias-map tokens a record contributes. -/
def recordTokens (r : Record) : List String :=
  cellTokens (r.get FIELD_ALIAS_SYMBOL) ++ cellTokens (r.get FIELD_PREV_SYMBOL)

-- ===== Concrete example datasets used by witnesses and counterexamples =====

def exHeader : String :=
  "hgnc_id\tsymbol\tentrez_id\tensembl_gene_id\talias_symbol\tprev_symbol\tname"

def exLines : List String :=
  ["HGNC:5\tA1BG\t1\tENSG00000121410\t\t\talpha-1-B glycoprotein",
   "HGNC:37133\tA1BG-AS1\t503538\tENSG00000268895\tFLJ23569\tNCRNA00181|A1BGAS|A1BG-AS\tA1BG antisense RNA 1"]

def exDB : HGNC := LoadTsv exHeader exLines

/-- A dataset whose single record has an empty `symbol` cell. -/
def exEmptyHeader : String := "hgnc_id\tsymbol\talias_symbol\tprev_symbol"

def exEmptyLines : List String := ["HGNC:1\t\t\t"]

def exEmptyDB : HGNC := LoadTsv exEmptyHeader exEmptyLines

-- ===== Load-pass invariants (proved below for every loaded database) =====

/-- The cache store is exact: indexed fields have a cache mapping every
non-empty value to precisely the row-ordered positions of the records
holding it (and no empty key); non-indexed fields have no cache. -/
def CacheInv (h : HGNC) : Prop :=
  (∀ f, f ∈ indexedFields →
    ∃ c, lookupAssoc h.caches f = some c ∧ lookupAssoc c "" = none ∧
      ∀ v, v ≠ "" → (lookupAssoc c v).getD [] = matchPositions h.records f v) ∧
  (∀ f, f ∉ indexedFields → lookupAssoc h.caches f = none)

/-- Every stored record's current symbol is in the standard-symbol set. -/
def SymInv (h : HGNC) : Prop :=
  ∀ r ∈ h.records, r.get FIELD_SYMBOL ∈ h.stdHgncSymbols

/-- Every stored field value is whitespace-trimmed. -/
def TrimInv (h : HGNC) : Prop :=
  ∀ r ∈ h.records, ∀ f, goTrimSpace (r.get f) = r.get f

/-- The alias map sends a token to the current symbol of the last record
(in row order) contributing that token. -/
def AliasInv (h : HGNC) : Prop :=
  ∀ k, lookupAssoc h.geneSymbolMap k =
    ((h.records.filter (fun r => decide (k ∈ recordTokens r))).getLast?).map
      (fun r => r.get FIELD_SYMBOL)

/-- All invariants of the load pass, carried with the row counter. -/
def LoadedInv (acc : HGNC × Nat) : Prop :=
  CacheInv acc.1 ∧ SymInv acc.1 ∧ TrimInv acc.1 ∧ AliasInv acc.1 ∧
  acc.2 = acc.1.records.length ∧ acc.1.autoNormSymbol = true

-- ===== Association-list lemmas =====

theorem lookup_insertAssoc {α : Type} (m : List (String × α)) (k k' : String) (v : α) :
    lookupAssoc (insertAssoc m k v) k' = if k = k' then some v else lookupAssoc m k' := by
  induction m with
  | nil => simp [insertAssoc, lookupAssoc]
  | cons p rest ih =>
    obtain ⟨a, b⟩ := p
    by_cases hak : a = k
    · subst hak
      simp only [insertAssoc, if_pos rfl, lookupAssoc]
      by_cases h : a = k' <;> simp [h]
    · simp only [insertAssoc, if_neg hak, lookupAssoc]
      by_cases hak' : a = k'
      · subst hak'
        have : ¬ k = a := fun h => hak h.symm
        simp [this]
      · simp [hak', ih]

theorem lookup_cacheAppend (c : Cache) (v w : String) (idx : Nat) :
    lookupAssoc (cacheAppend c v idx) w =
      if v = w then some (((lookupAssoc c v).getD []) ++ [idx])
      else lookupAssoc c w := by
  induction c with
  | nil => simp [cacheAppend, lookupAssoc]
  | cons p rest ih =>
    obtain ⟨a, l⟩ := p
    by_cases hav : a = v
    · subst hav
      simp only [cacheAppend, if_pos rfl, lookupAssoc]
      by_cases h : a = w <;> simp [h]
    · simp only [cacheAppend, if_neg hav, lookupAssoc]
      by_cases haw : a = w
      · subst haw
        have : ¬ v = a := fun h => hav h.symm
        simp [this]
      · simp [haw, ih]

theorem lookup_updateAssocCache (cs : List (Field × Cache)) (f g : Field)
    (v : String) (idx : Nat) :
    lookupAssoc (updateAssocCache cs f v idx) g =
      if f = g then (lookupAssoc cs f).map (fun c => cacheAppend c v idx)
      else lookupAssoc cs g := by
  induction cs with
  | nil => simp [updateAssocCache, lookupAssoc]
  | cons p rest ih =>
    obtain ⟨a, c⟩ := p
    by_cases haf : a = f
    · subst haf
      by_cases hag : a = g
      · subst hag
        simp [updateAssocCache, lookupAssoc]
      · simp [updateAssocCache, lookupAssoc, hag, fun h : a = g => hag h]
    · simp only [updateAssocCache, if_neg haf, lookupAssoc]
      by_cases hag : a = g
      · subst hag
        have hfa : ¬ f = a := fun h => haf h.symm
        simp [hfa]
      · simp [hag, ih]

theorem lookup_map_pairs {α β : Type} (m : List (String × α)) (g : α → β) (k : String) :
    lookupAssoc (m.map (fun p => (p.1, g p.2))) k = (lookupAssoc m k).map g := by
  induction m with
  | nil => simp [lookupAssoc]
  | cons p rest ih =>
    by_cases h : p.1 = k
    · simp [lookupAssoc, h]
    · simp [lookupAssoc, h, ih]

theorem lookup_map_const {α : Type} (l : List String) (c : α) (k : String) :
    lookupAssoc (l.map (fun f => (f, c))) k = if k ∈ l then some c else none := by
  induction l with
  | nil => simp [lookupAssoc]
  | cons a rest ih =>
    by_cases h : a = k
    · subst h
      simp [lookupAssoc]
    · have : ¬ k = a := fun hh => h hh.symm
      simp [lookupAssoc, h, this, ih]

-- ===== Trimming lemmas =====

theorem dropWhile_dropWhile (p : Char → Bool) (l : List Char) :
    List.dropWhile p (List.dropWhile p l) = List.dropWhile p l := by
  induction l with
  | nil => simp
  | cons a t ih =>
    by_cases h : p a
    · simp [List.dropWhile_cons, h, ih]
    · simp [List.dropWhile_cons, h]

theorem dropWhile_fixed_of_isPre (p : Char → Bool) (l y : List Char)
    (hfix : List.dropWhile p l = l) (hpre : y <+: l) :
    List.dropWhile p y = y := by
  cases y with
  | nil => simp
  | cons a t =>
    obtain ⟨rest, hrest⟩ := hpre
    cases l with
    | nil => simp at hrest
    | cons b s =>
      have hab : a = b := by
        have := congrArg (fun l => l.head?) hrest
        simpa using this
      subst hab
      have hpa : ¬ p a := by
        intro hp
        have h1 : List.dropWhile p s = a :: s := by
          rw [List.dropWhile_cons, if_pos hp] at hfix
          exact hfix
        have h2 : (List.dropWhile p s).length ≤ s.length :=
          (List.dropWhile_suffix p).length_le
        rw [h1] at h2
        simp at h2
      simp [List.dropWhile_cons, hpa]

theorem trimCharsBy_idem (p : Char → Bool) (l : List Char) :
    trimCharsBy p (trimCharsBy p l) = trimCharsBy p l := by
  unfold trimCharsBy
  set A := List.dropWhile p l with hA
  set B := List.dropWhile p A.reverse with hB
  have hfixA : List.dropWhile p A = A := by
    rw [hA]; exact dropWhile_dropWhile p l
  have hBpre : B.reverse <+: A := by
    have hsfx : B <:+ A.reverse := by
      rw [hB]; exact List.dropWhile_suffix p
    have := List.reverse_prefix.mpr hsfx
    simpa using this
  have hfixBrev : List.dropWhile p B.reverse = B.reverse :=
    dropWhile_fixed_of_isPre p A B.reverse hfixA hBpre
  rw [hfixBrev, List.reverse_reverse]
  have hfixB : List.dropWhile p B = B := by
    rw [hB]; exact dropWhile_dropWhile p A.reverse
  rw [hfixB]

theorem goTrimSpace_idem (s : String) : goTrimSpace (goTrimSpace s) = goTrimSpace s := by
  simp [goTrimSpace, trimCharsBy_idem]

theorem goTrimSpace_empty : goTrimSpace "" = "" := rfl

-- ===== Generic fold preservation =====

theorem foldl_preserve {σ α : Type} (P : σ → Prop) (step : σ → α → σ)
    (hstep : ∀ acc a, P acc → P (step acc a)) :
    ∀ (l : List α) (acc : σ), P acc → P (l.foldl step acc) := by
  intro l
  induction l with
  | nil => intro acc h; simpa using h
  | cons a t ih =>
    intro acc h
    simpa [List.foldl_cons] using ih (step acc a) (hstep acc a h)

-- ===== Alias-map lemmas =====

theorem lookup_tokens_foldl (sym : String) (toks : List String) :
    ∀ (m : List (String × String)) (k : String),
    lookupAssoc (toks.foldl (fun m tok =>
        let t := goTrimSpace tok
        if t = "" then m else insertAssoc m t sym) m) k =
      if k ∈ (toks.map goTrimSpace).filter (fun t => !(t == "")) then some sym
      else lookupAssoc m k := by
  induction toks with
  | nil => intro m k; simp
  | cons t rest ih =>
    intro m k
    simp only [List.foldl_cons, List.map_cons, List.filter_cons]
    by_cases ht : goTrimSpace t = ""
    · simp only [ht, if_pos rfl]
      have : (!(("" : String) == "")) = false := by simp
      rw [this]
      simp only [Bool.false_eq_true, if_neg (by simp : ¬ false = true)]
      exact ih m k
    · have hkeep : (!(goTrimSpace t == "")) = true := by simp [ht]
      rw [hkeep]
      simp only [if_pos rfl, if_neg ht]
      rw [ih (insertAssoc m (goTrimSpace t) sym) k]
      rw [lookup_insertAssoc]
      by_cases hk : k ∈ (rest.map goTrimSpace).filter (fun t => !(t == ""))
      · simp [hk]
      · by_cases hkt : goTrimSpace t = k
        · simp [hk, hkt, List.mem_cons]
        · have : ¬ k = goTrimSpace t := fun h => hkt h.symm
          simp [hk, hkt, this, List.mem_cons]

theorem lookup_addAliasTokens (m : List (String × String)) (cell sym k : String) :
    lookupAssoc (addAliasTokens m cell sym) k =
      if k ∈ cellTokens cell then some sym else lookupAssoc m k := by
  by_cases hc : cell = ""
  · subst hc
    have h0 : cellTokens "" = [] := rfl
    simp [addAliasTokens, h0]
  · have hrw : addAliasTokens m cell sym = (goSplit cell '|').foldl (fun m tok =>
        let t := goTrimSpace tok
        if t = "" then m else insertAssoc m t sym) m := by
      simp [addAliasTokens, hc]
    rw [hrw, lookup_tokens_foldl]
    rfl

theorem lookup_loadRecord_gsm (h : HGNC) (i : Nat) (r : Record) (k : String) :
    lookupAssoc (loadRecord h i r).geneSymbolMap k =
      if k ∈ recordTokens r then some (r.get FIELD_SYMBOL)
      else lookupAssoc h.geneSymbolMap k := by
  show lookupAssoc (addAliasTokens
      (addAliasTokens h.geneSymbolMap (r.get FIELD_ALIAS_SYMBOL) (r.get FIELD_SYMBOL))
      (r.get FIELD_PREV_SYMBOL) (r.get FIELD_SYMBOL)) k = _
  rw [lookup_addAliasTokens, lookup_addAliasTokens]
  by_cases h1 : k ∈ cellTokens (r.get FIELD_PREV_SYMBOL) <;>
    by_cases h2 : k ∈ cellTokens (r.get FIELD_ALIAS_SYMBOL) <;>
      simp [h1, h2, recordTokens, List.mem_append]

-- ===== Symbol-set lemmas =====

theorem mem_insertSet_self (s : List String) (x : String) : x ∈ insertSet s x := by
  unfold insertSet
  by_cases h : x ∈ s <;> simp [h]

theorem mem_insertSet_of_mem (s : List String) (x y : String) (h : y ∈ s) :
    y ∈ insertSet s x := by
  unfold insertSet
  by_cases hx : x ∈ s <;> simp [hx, h]

-- ===== Cache-update lemmas =====

theorem lookup_foldl_caches (r : Record) (idx : Nat) (fs : List Field) :
    ∀ (cs : List (Field × Cache)) (g : Field), fs.Nodup →
    lookupAssoc (fs.foldl (fun cs f =>
        if r.get f = "" then cs else updateAssocCache cs f (r.get f) idx) cs) g =
      if g ∈ fs ∧ r.get g ≠ ""
      then (lookupAssoc cs g).map (fun c => cacheAppend c (r.get g) idx)
      else lookupAssoc cs g := by
  induction fs with
  | nil => intro cs g _; simp
  | cons f rest ih =>
    intro cs g hnd
    have hfr : f ∉ rest := (List.nodup_cons.mp hnd).1
    have hndr : rest.Nodup := (List.nodup_cons.mp hnd).2
    simp only [List.foldl_cons]
    rw [ih _ g hndr]
    have hstep : g ≠ f →
        lookupAssoc (if r.get f = "" then cs else updateAssocCache cs f (r.get f) idx) g =
          lookupAssoc cs g := by
      intro hgf
      by_cases hf : r.get f = ""
      · rw [if_pos hf]
      · rw [if_neg hf, lookup_updateAssocCache, if_neg (fun h : f = g => hgf h.symm)]
    by_cases hg : g ∈ rest
    · have hgf : g ≠ f := fun he => hfr (he ▸ hg)
      rw [hstep hgf]
      by_cases hge : r.get g = ""
      · simp [hg, hge]
      · simp [hg, hge, List.mem_cons]
    · by_cases hgf : g = f
      · subst hgf
        simp only [hg, false_and, if_neg (by simp : ¬ (False ∧ r.get g ≠ ""))]
        by_cases hge : r.get g = ""
        · rw [if_pos hge]
          simp [hge]
        · rw [if_neg hge, lookup_updateAssocCache, if_pos rfl]
          simp [hge, List.mem_cons]
      · rw [hstep hgf]
        have : ¬ g ∈ f :: rest := by simp [List.mem_cons, hgf, hg]
        simp [hg, this]

-- ===== matchPositions lemmas =====

theorem matchPositions_nil (f : Field) (v : String) : matchPositions [] f v = [] := rfl

theorem matchPositions_append (rs : List Record) (r : Record) (f : Field) (v : String) :
    matchPositions (rs ++ [r]) f v =
      matchPositions rs f v ++ (if r.get f == v then [rs.length] else []) := by
  unfold matchPositions
  have hlen : (rs ++ [r]).length = rs.length + 1 := by simp
  rw [hlen, List.range_succ, List.filter_append]
  congr 1
  · apply List.filter_congr
    intro i hi
    have hilt : i < rs.length := List.mem_range.mp hi
    rw [List.getD_append _ _ _ _ hilt]
  · have hn : (rs ++ [r]).getD rs.length emptyRecord = r := by
      simp [List.getD_eq_getElem?_getD]
    by_cases hc : r.get f == v
    · simp [List.filter_cons, hn, hc]
    · simp [List.filter_cons, hn, hc]

theorem matchPositions_map_getD (rs : List Record) (f : Field) (v : String) :
    (matchPositions rs f v).map (fun i => rs.getD i emptyRecord) =
      rs.filter (fun r => r.get f == v) := by
  induction rs with
  | nil => rfl
  | cons r rest ih =>
    unfold matchPositions
    rw [List.length_cons, List.range_succ_eq_map]
    rw [List.filter_cons]
    have h0 : ((r :: rest).getD 0 emptyRecord).get f = r.get f := rfl
    have hmapfil : ((List.range rest.length).map Nat.succ).filter
        (fun i => ((r :: rest).getD i emptyRecord).get f == v) =
        ((List.range rest.length).filter
          (fun i => (rest.getD i emptyRecord).get f == v)).map Nat.succ := by
      rw [List.filter_map]
      apply congrArg
      apply List.filter_congr
      intro i _
      rfl
    by_cases hc : r.get f == v
    · rw [if_pos (by simpa [h0] using hc)]
      rw [List.map_cons, hmapfil, List.map_map]
      rw [List.filter_cons, if_pos hc]
      congr 1
    · rw [if_neg (by simpa [h0] using hc)]
      rw [hmapfil, List.map_map]
      rw [List.filter_cons, if_neg (by simpa using hc)]
      exact ih

-- ===== line2Record lemmas =====

theorem line2Record_get (line : String) (hm : List (String × Nat)) (f : Field) :
    (line2Record line hm).get f =
      ((lookupAssoc hm f).map (fun i =>
        if i < (goSplit line '\t').length
        then goTrimSpace (trimQuotes ((goSplit line '\t').getD i ""))
        else "")).getD "" := by
  unfold Record.get
  refine congrArg (fun o => Option.getD o "") ?_
  exact lookup_map_pairs hm (fun i =>
    if i < (goSplit line '\t').length
    then goTrimSpace (trimQuotes ((goSplit line '\t').getD i ""))
    else "") f

theorem line2Record_trimFixed (line : String) (hm : List (String × Nat)) (f : Field) :
    goTrimSpace ((line2Record line hm).get f) = (line2Record line hm).get f := by
  rw [line2Record_get]
  cases hl : lookupAssoc hm f with
  | none => simp [goTrimSpace_empty]
  | some i =>
    by_cases hi : i < (goSplit line '\t').length
    · simp [hi, goTrimSpace_idem]
    · simp [hi, goTrimSpace_empty]

-- ===== Invariant preservation along the load pass =====

theorem cacheInv_loadRecord (h : HGNC) (r : Record) (hc : CacheInv h) :
    CacheInv (loadRecord h h.records.length r) := by
  have hnd : indexedFields.Nodup := by decide
  have hrec : (loadRecord h h.records.length r).records = h.records ++ [r] := rfl
  have hcaches : (loadRecord h h.records.length r).caches
      = updateCaches h.caches r h.records.length := rfl
  constructor
  · intro f hf
    obtain ⟨c, hlc, hce, hcv⟩ := hc.1 f hf
    have hlook : lookupAssoc (updateCaches h.caches r h.records.length) f =
        if f ∈ indexedFields ∧ r.get f ≠ ""
        then (lookupAssoc h.caches f).map
          (fun c => cacheAppend c (r.get f) h.records.length)
        else lookupAssoc h.caches f :=
      lookup_foldl_caches r h.records.length indexedFields h.caches f hnd
    by_cases hrf : r.get f = ""
    · refine ⟨c, ?_, hce, ?_⟩
      · rw [hcaches, hlook, if_neg (by simp [hrf])]
        exact hlc
      · intro v hv
        rw [hrec, matchPositions_append]
        have hne : (r.get f == v) = false := by
          apply beq_eq_false_iff_ne.mpr
          rw [hrf]
          exact fun he => hv he.symm
        rw [hne]
        simp [hcv v hv]
    · refine ⟨cacheAppend c (r.get f) h.records.length, ?_, ?_, ?_⟩
      · rw [hcaches, hlook, if_pos ⟨hf, hrf⟩, hlc]
        rfl
      · rw [lookup_cacheAppend, if_neg hrf]
        exact hce
      · intro v hv
        rw [hrec, matchPositions_append, lookup_cacheAppend]
        by_cases hveq : r.get f = v
        · subst hveq
          rw [if_pos rfl]
          simp only [Option.getD_some]
          rw [hcv _ hv]
          simp
        · rw [if_neg hveq]
          have hne : (r.get f == v) = false := beq_eq_false_iff_ne.mpr hveq
          rw [hne]
          simp [hcv v hv]
  · intro f hf
    have hlook : lookupAssoc (updateCaches h.caches r h.records.length) f =
        if f ∈ indexedFields ∧ r.get f ≠ ""
        then (lookupAssoc h.caches f).map
          (fun c => cacheAppend c (r.get f) h.records.length)
        else lookupAssoc h.caches f :=
      lookup_foldl_caches r h.records.length indexedFields h.caches f hnd
    rw [hcaches, hlook, if_neg (by simp [hf])]
    exact hc.2 f hf

theorem loadedInv_step (hm : List (String × Nat)) (acc : HGNC × Nat) (line : String)
    (hinv : LoadedInv acc) : LoadedInv (loadStep hm acc line) := by
  obtain ⟨hci, hsi, hti, hai, hcnt, han⟩ := hinv
  refine ⟨?_, ?_, ?_, ?_, ?_, ?_⟩
  · show CacheInv (loadRecord acc.1 acc.2 (line2Record line hm))
    rw [hcnt]
    exact cacheInv_loadRecord acc.1 (line2Record line hm) hci
  · show SymInv (loadRecord acc.1 acc.2 (line2Record line hm))
    intro r' hr'
    have hmem : r' ∈ acc.1.records ++ [line2Record line hm] := hr'
    rcases List.mem_append.mp hmem with hold | hnew
    · exact mem_insertSet_of_mem _ _ _ (hsi r' hold)
    · have : r' = line2Record line hm := by simpa using hnew
      subst this
      exact mem_insertSet_self _ _
  · show TrimInv (loadRecord acc.1 acc.2 (line2Record line hm))
    intro r' hr' f
    have hmem : r' ∈ acc.1.records ++ [line2Record line hm] := hr'
    rcases List.mem_append.mp hmem with hold | hnew
    · exact hti r' hold f
    · have : r' = line2Record line hm := by simpa using hnew
      subst this
      exact line2Record_trimFixed line hm f
  · show AliasInv (loadRecord acc.1 acc.2 (line2Record line hm))
    intro k
    rw [lookup_loadRecord_gsm]
    have hrec : (loadRecord acc.1 acc.2 (line2Record line hm)).records
        = acc.1.records ++ [line2Record line hm] := rfl
    rw [hrec, List.filter_append]
    by_cases hk : k ∈ recordTokens (line2Record line hm)
    · rw [if_pos hk]
      have : (acc.1.records.filter (fun r => decide (k ∈ recordTokens r))) ++
          ([line2Record line hm].filter (fun r => decide (k ∈ recordTokens r))) =
          (acc.1.records.filter (fun r => decide (k ∈ recordTokens r))) ++
          [line2Record line hm] := by
        simp [hk]
      rw [this, List.getLast?_concat]
      rfl
    · rw [if_neg hk]
      have : ([line2Record line hm].filter (fun r => decide (k ∈ recordTokens r))) =
          [] := by simp [hk]
      rw [this, List.append_nil]
      exact hai k
  · show acc.2 + 1 = (loadRecord acc.1 acc.2 (line2Record line hm)).records.length
    have hrec : (loadRecord acc.1 acc.2 (line2Record line hm)).records
        = acc.1.records ++ [line2Record line hm] := rfl
    rw [hrec, List.length_append, ← hcnt]
    rfl
  · show (loadRecord acc.1 acc.2 (line2Record line hm)).autoNormSymbol = true
    exact han

theorem loadedInv_init : LoadedInv (initHGNC, 0) := by
  refine ⟨⟨?_, ?_⟩, ?_, ?_, ?_, rfl, rfl⟩
  · intro f hf
    refine ⟨[], ?_, rfl, ?_⟩
    · show lookupAssoc (indexedFields.map (fun f => (f, ([] : Cache)))) f = some []
      rw [lookup_map_const, if_pos hf]
    · intro v hv
      rfl
  · intro f hf
    show lookupAssoc (indexedFields.map (fun f => (f, ([] : Cache)))) f = none
    rw [lookup_map_const, if_neg hf]
  · intro r hr
    exact absurd hr (by simp [initHGNC])
  · intro r hr
    exact absurd hr (by simp [initHGNC])
  · intro k
    rfl

theorem loadTsvPair_inv (header : String) (lines : List String) :
    LoadedInv (loadTsvPair header lines) := by
  unfold loadTsvPair
  exact foldl_preserve LoadedInv (loadStep (mkHeaderMap header))
    (fun acc line hp => loadedInv_step (mkHeaderMap header) acc line hp)
    lines (initHGNC, 0) loadedInv_init

theorem cacheInv_loadTsv (header : String) (lines : List String) :
    CacheInv (LoadTsv header lines) := (loadTsvPair_inv header lines).1

theorem symInv_loadTsv (header : String) (lines : List String) :
    SymInv (LoadTsv header lines) := (loadTsvPair_inv header lines).2.1

theorem trimInv_loadTsv (header : String) (lines : List String) :
    TrimInv (LoadTsv header lines) := (loadTsvPair_inv header lines).2.2.1

theorem aliasInv_loadTsv (header : String) (lines : List String) :
    AliasInv (LoadTsv header lines) := (loadTsvPair_inv header lines).2.2.2.1

theorem autoNorm_loadTsv (header : String) (lines : List String) :
    (LoadTsv header lines).autoNormSymbol = true :=
  (loadTsvPair_inv header lines).2.2.2.2.2

-- ===== Query-engine lemmas =====

theorem normalizeSymbol_fixed (h : HGNC) (s : String) (hauto : h.autoNormSymbol = true)
    (htrim : goTrimSpace s = s) (hmem : s ∈ h.stdHgncSymbols) :
    normalizeSymbol h s = s := by
  unfold normalizeSymbol
  rw [htrim, hauto]
  simp [hmem]

theorem filterMap_if {α β : Type} (p : α → Bool) (g : α → β) (l : List α) :
    l.filterMap (fun a => if p a then some (g a) else none) =
      (l.filter p).map g := by
  induction l with
  | nil => rfl
  | cons a t ih =>
    by_cases h : p a
    · simp [List.filterMap_cons, List.filter_cons, h, ih]
    · simp [List.filterMap_cons, List.filter_cons, h, ih]

theorem fetch_eq_filter_eff (h : HGNC) (hc : CacheInv h) (f : Field) (v w : String)
    (hv : v ≠ "") (hw : w = (if f = FIELD_SYMBOL then normalizeSymbol h v else v))
    (hw' : w ≠ "") :
    Fetch h v f = h.records.filter (fun r => r.get f == w) := by
  subst hw
  have hFetch : Fetch h v f =
      (match lookupAssoc h.caches f with
       | some cache =>
         (match lookupAssoc cache (if f = FIELD_SYMBOL then normalizeSymbol h v else v) with
          | some indexes => indexes.map (fun i => h.records.getD i emptyRecord)
          | none => ([] : List Record))
       | none => h.records.filter (fun r =>
           r.get f == (if f = FIELD_SYMBOL then normalizeSymbol h v else v))) := by
    unfold Fetch
    rw [if_neg hv]
  rw [hFetch]
  cases hcache : lookupAssoc h.caches f with
  | none => rfl
  | some cache =>
    have hf : f ∈ indexedFields := by
      by_contra hnf
      rw [hc.2 f hnf] at hcache
      exact Option.noConfusion hcache
    obtain ⟨c, hlc, hce, hcv⟩ := hc.1 f hf
    have hcc : cache = c := Option.some.inj (hcache.symm.trans hlc)
    subst hcc
    show (match lookupAssoc cache (if f = FIELD_SYMBOL then normalizeSymbol h v else v) with
          | some indexes => indexes.map (fun i => h.records.getD i emptyRecord)
          | none => ([] : List Record)) = _
    cases hlk : lookupAssoc cache (if f = FIELD_SYMBOL then normalizeSymbol h v else v) with
    | some ixs =>
      have hmatch := hcv _ hw'
      rw [hlk] at hmatch
      simp only [Option.getD_some] at hmatch
      show ixs.map (fun i => h.records.getD i emptyRecord) = _
      rw [hmatch]
      exact matchPositions_map_getD h.records f _
    | none =>
      have hmatch := hcv _ hw'
      rw [hlk] at hmatch
      simp only [Option.getD_none] at hmatch
      show ([] : List Record) = _
      rw [← matchPositions_map_getD h.records f _, ← hmatch]
      rfl

-- ===== Claim theorems =====

/-- Claim C1: for every value string and every pair of query/target fields,
`Lookup value query target` is exactly the `target` projection of
`Fetch value query`, entry by entry and in the same order; absent target
fields project to `""` via `Record.get`, so the lengths always agree. -/
theorem c1_lookup_is_fetch_projection (h : HGNC) (value : String) (q t : Field) :
    Lookup h value q t = (Fetch h value q).map (fun r => r.get t) ∧
    (Lookup h value q t).length = (Fetch h value q).length := by
  have hmain : Lookup h value q t = (Fetch h value q).map (fun r => r.get t) := by
    by_cases hv : value = ""
    · subst hv
      rfl
    · unfold Lookup Fetch
      rw [if_neg hv, if_neg hv]
      cases hcache : lookupAssoc h.caches q with
      | none =>
        show h.records.filterMap (fun r =>
            if r.get q == (if q = FIELD_SYMBOL then normalizeSymbol h value else value)
            then some (r.get t) else none) =
          (h.records.filter (fun r =>
            r.get q == (if q = FIELD_SYMBOL then normalizeSymbol h value else value))).map
            (fun r => r.get t)
        exact filterMap_if
          (fun r => r.get q == (if q = FIELD_SYMBOL then normalizeSymbol h value else value))
          (fun r => r.get t) h.records
      | some cache =>
        show (match lookupAssoc cache
              (if q = FIELD_SYMBOL then normalizeSymbol h value else value) with
            | some indexes =>
              indexes.map (fun i => (h.records.getD i emptyRecord).get t)
            | none => ([] : List String)) =
          ((match lookupAssoc cache
              (if q = FIELD_SYMBOL then normalizeSymbol h value else value) with
            | some indexes => indexes.map (fun i => h.records.getD i emptyRecord)
            | none => ([] : List Record)) : List Record).map (fun r => r.get t)
        cases hlk : lookupAssoc cache
            (if q = FIELD_SYMBOL then normalizeSymbol h value else value) with
        | some ixs =>
          show ixs.map (fun i => (h.records.getD i emptyRecord).get t) =
            (ixs.map (fun i => h.records.getD i emptyRecord)).map (fun r => r.get t)
          rw [List.map_map]
          rfl
        | none => rfl
  exact ⟨hmain, by rw [hmain, List.length_map]⟩

/-- Claim C2, counterexample: on the loaded example database the claim
"`Fetch value field` returns the same record set as a brute-force scan
comparing `field` to `value`, for every value and field" fails twice.
With the empty value, the scan selects the records whose `locus_group`
cell is empty but `Fetch` returns nothing; with an alias value on the
symbol field, `Fetch` normalizes the alias and finds its record while the
literal scan finds none. -/
theorem c2_counterexample :
    exDB.records.getD 0 emptyRecord ∈ bruteForceFetch exDB "" FIELD_LOCUS_GROUP ∧
    exDB.records.getD 0 emptyRecord ∉ Fetch exDB "" FIELD_LOCUS_GROUP ∧
    exDB.records.getD 1 emptyRecord ∈ Fetch exDB "FLJ23569" FIELD_SYMBOL ∧
    exDB.records.getD 1 emptyRecord ∉ bruteForceFetch exDB "FLJ23569" FIELD_SYMBOL := by
  refine ⟨by decide, by decide, by decide, by decide⟩

/-- Claim C2 (amended): on a loaded database, for a non-empty value whose
effective query key (the symbol-normalized value when the query field is
the symbol field, the value itself otherwise) is also non-empty, `Fetch`
returns exactly the records a brute-force linear scan selects when
comparing the field to that effective key, in row order — identically
whether or not the field is indexed. -/
theorem c2_fetch_eq_scan (header : String) (lines : List String) (f : Field) (v : String)
    (hv : v ≠ "")
    (hw : (if f = FIELD_SYMBOL then normalizeSymbol (LoadTsv header lines) v else v) ≠ "") :
    Fetch (LoadTsv header lines) v f =
      bruteForceFetch (LoadTsv header lines)
        (if f = FIELD_SYMBOL then normalizeSymbol (LoadTsv header lines) v else v) f :=
  fetch_eq_filter_eff (LoadTsv header lines) (cacheInv_loadTsv header lines) f v _ hv rfl hw

theorem c2_fetch_eq_scan_witness :
    Fetch exDB "1" FIELD_ENTREZ_ID = bruteForceFetch exDB "1" FIELD_ENTREZ_ID := by
  have h := c2_fetch_eq_scan exHeader exLines FIELD_ENTREZ_ID "1" (by decide) (by decide)
  exact h

/-- Claim C3, counterexample: in a loaded database whose single record has
an empty `symbol` cell, the symbol field is indexed and the record is
stored, yet `Fetch` at the record's own symbol value does not include the
record, and the value `""`, although it occurs at the symbol field in
exactly one record, yields a result of length `0`, not `1`. -/
theorem c3_counterexample :
    FIELD_SYMBOL ∈ indexedFields ∧
    exEmptyDB.records.getD 0 emptyRecord ∈ exEmptyDB.records ∧
    exEmptyDB.records.getD 0 emptyRecord ∉
      Fetch exEmptyDB
        ((exEmptyDB.records.getD 0 emptyRecord).get FIELD_SYMBOL) FIELD_SYMBOL ∧
    (exEmptyDB.records.filter (fun r => r.get FIELD_SYMBOL == "")).length = 1 ∧
    (Fetch exEmptyDB "" FIELD_SYMBOL).length = 0 := by
  refine ⟨by decide, by decide, by decide, by decide, by decide⟩

/-- Claim C3 (amended): on a loaded database, for every indexed field `F`
and every stored record `R` whose value at `F` is non-empty,
`Fetch (R.get F) F` includes `R`; and every non-empty value occurring at
`F` in exactly one record yields a `Fetch` result of length exactly 1. -/
theorem c3_indexed_lookup (header : String) (lines : List String) (F : Field)
    (hF : F ∈ indexedFields) :
    (∀ R, R ∈ (LoadTsv header lines).records → R.get F ≠ "" →
      R ∈ Fetch (LoadTsv header lines) (R.get F) F) ∧
    (∀ v, v ≠ "" →
      ((LoadTsv header lines).records.filter (fun r => r.get F == v)).length = 1 →
      (Fetch (LoadTsv header lines) v F).length = 1) := by
  have hci := cacheInv_loadTsv header lines
  have hsym := symInv_loadTsv header lines
  have htrim := trimInv_loadTsv header lines
  have hauto := autoNorm_loadTsv header lines
  constructor
  · intro R hR hRne
    have heffval :
        (if F = FIELD_SYMBOL then normalizeSymbol (LoadTsv header lines) (R.get F)
         else R.get F) = R.get F := by
      by_cases hFs : F = FIELD_SYMBOL
      · rw [if_pos hFs]
        subst hFs
        exact normalizeSymbol_fixed _ _ hauto (htrim R hR FIELD_SYMBOL) (hsym R hR)
      · rw [if_neg hFs]
    have hfetch := fetch_eq_filter_eff (LoadTsv header lines) hci F (R.get F) (R.get F)
      hRne heffval.symm hRne
    rw [hfetch]
    exact List.mem_filter.mpr ⟨hR, by simp⟩
  · intro v hv hcount
    have hex : ∃ R, R ∈ (LoadTsv header lines).records ∧ R.get F = v := by
      cases hfil : (LoadTsv header lines).records.filter (fun r => r.get F == v) with
      | nil =>
        rw [hfil] at hcount
        exact absurd hcount (by simp)
      | cons x xs =>
        have hx : x ∈ (LoadTsv header lines).records.filter (fun r => r.get F == v) := by
          rw [hfil]; exact List.mem_cons_self x xs
        have := List.mem_filter.mp hx
        exact ⟨x, this.1, by simpa using this.2⟩
    obtain ⟨R, hR, hRv⟩ := hex
    have heffval :
        (if F = FIELD_SYMBOL then normalizeSymbol (LoadTsv header lines) v else v) = v := by
      by_cases hFs : F = FIELD_SYMBOL
      · rw [if_pos hFs]
        subst hFs
        rw [← hRv]
        exact normalizeSymbol_fixed _ _ hauto (htrim R hR FIELD_SYMBOL) (hsym R hR)
      · rw [if_neg hFs]
    have hfetch := fetch_eq_filter_eff (LoadTsv header lines) hci F v v hv heffval.symm hv
    rw [hfetch]
    exact hcount

theorem c3_indexed_lookup_witness :
    exDB.records.getD 0 emptyRecord ∈
      Fetch exDB ((exDB.records.getD 0 emptyRecord).get FIELD_HGNC_ID) FIELD_HGNC_ID ∧
    (Fetch exDB "HGNC:5" FIELD_HGNC_ID).length = 1 := by
  have h := c3_indexed_lookup exHeader exLines FIELD_HGNC_ID (by decide)
  exact ⟨h.1 (exDB.records.getD 0 emptyRecord) (by decide) (by decide),
         h.2 "HGNC:5" (by decide) (by decide)⟩

/-- Claim C4: the symbol normalizer trims surrounding whitespace even when
auto-normalization is disabled and returns just the trimmed input then;
when enabled it returns the trimmed input when it is a standard symbol,
else the alias map's target when the trimmed input is a key there, else
the trimmed input unchanged. -/
theorem c4_normalize_spec (h : HGNC) (s : String) :
    (h.autoNormSymbol = false → normalizeSymbol h s = goTrimSpace s) ∧
    (h.autoNormSymbol = true → goTrimSpace s ∈ h.stdHgncSymbols →
      normalizeSymbol h s = goTrimSpace s) ∧
    (h.autoNormSymbol = true → goTrimSpace s ∉ h.stdHgncSymbols →
      ∀ std, lookupAssoc h.geneSymbolMap (goTrimSpace s) = some std →
        normalizeSymbol h s = std) ∧
    (h.autoNormSymbol = true → goTrimSpace s ∉ h.stdHgncSymbols →
      lookupAssoc h.geneSymbolMap (goTrimSpace s) = none →
        normalizeSymbol h s = goTrimSpace s) := by
  refine ⟨?_, ?_, ?_, ?_⟩
  · intro ha
    unfold normalizeSymbol
    simp [ha]
  · intro ha hmem
    unfold normalizeSymbol
    simp [ha, hmem]
  · intro ha hmem std hstd
    unfold normalizeSymbol
    simp [ha, hmem, hstd]
  · intro ha hmem hstd
    unfold normalizeSymbol
    simp [ha, hmem, hstd]

theorem c4_normalize_spec_witness :
    normalizeSymbol (SetAutoNormSymbol exDB false) " A1BG " = "A1BG" ∧
    normalizeSymbol exDB " A1BG " = "A1BG" ∧
    normalizeSymbol exDB "NCRNA00181" = "A1BG-AS1" ∧
    normalizeSymbol exDB "ZZZ9" = "ZZZ9" := by
  refine ⟨?_, ?_, ?_, ?_⟩
  · have h := (c4_normalize_spec (SetAutoNormSymbol exDB false) " A1BG ").1 (by decide)
    rw [h]
    decide
  · have h := (c4_normalize_spec exDB " A1BG ").2.1 (by decide) (by decide)
    rw [h]
    decide
  · exact (c4_normalize_spec exDB "NCRNA00181").2.2.1 (by decide) (by decide)
      "A1BG-AS1" (by decide)
  · have h := (c4_normalize_spec exDB "ZZZ9").2.2.2 (by decide) (by decide) (by decide)
    rw [h]
    decide

/-- Claim C5: the identifier classifier is total and applies ordered
first-match-wins rules — `HGNC:` maps to the HGNC-id field, else `ENSG`
to the Ensembl-gene-id field, else `uc` to the UCSC-id field, else a
string `strconv.Atoi` accepts to the Entrez-id field, else the symbol
field — and classifies the five reference inputs accordingly. -/
theorem c5_classifier :
    classifyGeneStringSystem "HGNC:1100" = FIELD_HGNC_ID ∧
    classifyGeneStringSystem "ENSG00000012048" = FIELD_ENSEMBL_GENE_ID ∧
    classifyGeneStringSystem "uc002ict.4" = FIELD_UCSC_ID ∧
    classifyGeneStringSystem "7157" = FIELD_ENTREZ_ID ∧
    classifyGeneStringSystem "BRCA1" = FIELD_SYMBOL ∧
    (∀ g, hasPre "HGNC:" g = true → classifyGeneStringSystem g = FIELD_HGNC_ID) ∧
    (∀ g, hasPre "HGNC:" g = false → hasPre "ENSG" g = true →
      classifyGeneStringSystem g = FIELD_ENSEMBL_GENE_ID) ∧
    (∀ g, hasPre "HGNC:" g = false → hasPre "ENSG" g = false → hasPre "uc" g = true →
      classifyGeneStringSystem g = FIELD_UCSC_ID) ∧
    (∀ g, hasPre "HGNC:" g = false → hasPre "ENSG" g = false → hasPre "uc" g = false →
      atoiOk g = true → classifyGeneStringSystem g = FIELD_ENTREZ_ID) ∧
    (∀ g, hasPre "HGNC:" g = false → hasPre "ENSG" g = false → hasPre "uc" g = false →
      atoiOk g = false → classifyGeneStringSystem g = FIELD_SYMBOL) := by
  refine ⟨by decide, by decide, by decide, by decide, by decide, ?_, ?_, ?_, ?_, ?_⟩
  · intro g h1
    simp [classifyGeneStringSystem, h1]
  · intro g h1 h2
    simp [classifyGeneStringSystem, h1, h2]
  · intro g h1 h2 h3
    simp [classifyGeneStringSystem, h1, h2, h3]
  · intro g h1 h2 h3 h4
    simp [classifyGeneStringSystem, h1, h2, h3, h4]
  · intro g h1 h2 h3 h4
    simp [classifyGeneStringSystem, h1, h2, h3, h4]

theorem c5_classifier_witness :
    classifyGeneStringSystem "HGNC:9999" = FIELD_HGNC_ID ∧
    classifyGeneStringSystem "ENSG1" = FIELD_ENSEMBL_GENE_ID ∧
    classifyGeneStringSystem "uc031tla.1" = FIELD_UCSC_ID ∧
    classifyGeneStringSystem "672" = FIELD_ENTREZ_ID ∧
    classifyGeneStringSystem "TP53" = FIELD_SYMBOL := by
  refine ⟨?_, ?_, ?_, ?_, ?_⟩
  · exact c5_classifier.2.2.2.2.2.1 "HGNC:9999" (by decide)
  · exact c5_classifier.2.2.2.2.2.2.1 "ENSG1" (by decide) (by decide)
  · exact c5_classifier.2.2.2.2.2.2.2.1 "uc031tla.1" (by decide) (by decide) (by decide)
  · exact c5_classifier.2.2.2.2.2.2.2.2.1 "672" (by decide) (by decide) (by decide) (by decide)
  · exact c5_classifier.2.2.2.2.2.2.2.2.2 "TP53" (by decide) (by decide) (by decide) (by decide)

/-- Claim C6: with the empty value, `Fetch` and `Lookup` return the empty
result immediately for every field, and on a non-nil handle this is a
successful (non-error) result. -/
theorem c6_empty_value_short_circuit (h : HGNC) (f q t : Field) :
    Fetch h "" f = [] ∧ Lookup h "" q t = [] ∧
    FetchHandle (some h) "" f = Except.ok [] ∧
    LookupHandle (some h) "" q t = Except.ok [] := by
  refine ⟨?_, ?_, ?_, ?_⟩ <;> simp [Fetch, Lookup, FetchHandle, LookupHandle]

/-- Claim C7: after a load, an indexed field's cache has no bucket for the
empty value, and for every non-empty value its bucket holds exactly the
row-ordered positions (hence each matching record exactly once) of the
records whose stored value — the trimmed, unquoted raw cell — equals the
key; the stored value itself is the trimmed, unquoted cell of the raw
line. -/
theorem c7_index_invariant (header : String) (lines : List String) (f : Field)
    (hf : f ∈ indexedFields) :
    cacheBucket? (LoadTsv header lines) f "" = none ∧
    (∀ v, v ≠ "" →
      (cacheBucket? (LoadTsv header lines) f v).getD [] =
        matchPositions (LoadTsv header lines).records f v) ∧
    (∀ line name i, lookupAssoc (mkHeaderMap header) name = some i →
      i < (goSplit line '\t').length →
      (line2Record line (mkHeaderMap header)).get name =
        goTrimSpace (trimQuotes ((goSplit line '\t').getD i ""))) := by
  obtain ⟨c, hlc, hce, hcv⟩ := (cacheInv_loadTsv header lines).1 f hf
  refine ⟨?_, ?_, ?_⟩
  · unfold cacheBucket?
    rw [hlc]
    exact hce
  · intro v hv
    unfold cacheBucket?
    rw [hlc]
    exact hcv v hv
  · intro line name i hlook hi
    rw [line2Record_get, hlook]
    simp [hi]

theorem c7_index_invariant_witness :
    cacheBucket? exDB FIELD_SYMBOL "" = none ∧
    (cacheBucket? exDB FIELD_SYMBOL "A1BG").getD [] =
      matchPositions exDB.records FIELD_SYMBOL "A1BG" ∧
    (line2Record (exLines.getD 0 "") (mkHeaderMap exHeader)).get FIELD_SYMBOL =
      goTrimSpace (trimQuotes ((goSplit (exLines.getD 0 "") '\t').getD 1 "")) := by
  have h := c7_index_invariant exHeader exLines FIELD_SYMBOL (by decide)
  exact ⟨h.1, h.2.1 "A1BG" (by decide),
         h.2.2 (exLines.getD 0 "") FIELD_SYMBOL 1 (by decide) (by decide)⟩

/-- Claim C8: in the loaded alias map, a token resolves to the current
symbol of the last record, in file order, that contributes it — where a
record's contributed tokens are its alias and previous-symbol cells split
on `|`, trimmed, with empty tokens skipped — and to nothing when no record
contributes it. -/
theorem c8_alias_last_writer (header : String) (lines : List String) (k : String) :
    lookupAssoc (LoadTsv header lines).geneSymbolMap k =
      (((LoadTsv header lines).records.filter
        (fun r => decide (k ∈ recordTokens r))).getLast?).map
        (fun r => r.get FIELD_SYMBOL) :=
  aliasInv_loadTsv header lines k

/-- Claim C9: a query on a nil handle is exactly the fatal case — the
result is an error (the Go panic) precisely when the handle is `none`,
with the panic message of the source, while any non-nil handle always
yields a successful result carrying the ordinary `Fetch`/`Lookup` value
(a miss being an empty list, not an error). -/
theorem c9_nil_handle_fatal (ho : Option HGNC) (hg : HGNC) (v : String) (q t : Field) :
    isOkE (FetchHandle ho v q) = ho.isSome ∧
    isOkE (LookupHandle ho v q t) = ho.isSome ∧
    FetchHandle none v q = Except.error "HGNC is nil" ∧
    LookupHandle none v q t = Except.error "HGNC is nil" ∧
    FetchHandle (some hg) v q = Except.ok (Fetch hg v q) ∧
    LookupHandle (some hg) v q t = Except.ok (Lookup hg v q t) := by
  refine ⟨?_, ?_, rfl, rfl, rfl, rfl⟩ <;> cases ho <;> rfl

/-- Claim C10: every load yields a handle with automatic symbol
normalization enabled, and the setter is the only way to change it. -/
theorem c10_autonorm_default (header : String) (lines : List String) (h : HGNC) (b : Bool) :
    (LoadTsv header lines).autoNormSymbol = true ∧
    (SetAutoNormSymbol h b).autoNormSymbol = b :=
  ⟨autoNorm_loadTsv header lines, rfl⟩

end HgncGo
